import Mathlib

/-!
Verification of the room/matchmaking and game-rules services of the
tic-tac-toe repository.

The Lean definitions below are a shallow embedding of the Python source:

* `check_winner`, `create_game`, `applyMove_v1` (the move branch of
  `websocket_game` in `src/game_rules_service/main.py`), `applyMove_v2`
  (the move branch of `websocket_game` in
  `src/game_rules_service/game_rules_service/main.py`), `set_turn`
  (the `set_turn` branch, present only in the first variant).
* `join_room`, `leave_room`, `start_game`,
  `notify_game_service_of_full_room` from `src/room_service/main.py`.

Match state is modelled as a record; database persistence is a pure
round trip (`persist_game`/`load_game` serialize and deserialize the
same fields), so a successful operation returning a new record models
"persisted", while an error result models "no mutation".  The notifier's
HTTP attempts are modelled by an oracle giving each attempt's response
status (`none` = network exception).  Timestamps (`created_at`) and the
websocket fan-out are omitted: no claim below mentions them.
-/

namespace TTT

/-! ### Board model (list of optional marker strings, as in the JSON column) -/

abbrev Board := List (Option String)

/-- The eight winning triples, exactly the `WIN_LINES` constant of both
game-rules service files. -/
def WIN_LINES : List (Nat × Nat × Nat) :=
  [(0,1,2),(3,4,5),(6,7,8),(0,3,6),(1,4,7),(2,5,8),(0,4,8),(2,4,6)]

/-- Python `board[i]` (boards in scope always have length 9). -/
def cell : Board → Nat → Option String
  | [], _ => none
  | c :: _, 0 => c
  | _ :: cs, n + 1 => cell cs n

/-- Python truthiness of a cell: `None` and `""` are falsy. -/
def truthy : Option String → Bool
  | none => false
  | some s => !(s == "")

/-- Python `board[a] and board[a]==board[b]==board[c]` for a triple. -/
def lineWins (b : Board) (l : Nat × Nat × Nat) : Bool :=
  truthy (cell b l.1) && cell b l.1 == cell b l.2.1 && cell b l.2.1 == cell b l.2.2

/-- `check_winner` from both game-rules service files: scan the eight
lines in order, return the first winning line's marker; otherwise return
`"draw"` when every cell is occupied, else nothing. -/
def check_winner (b : Board) : Option String :=
  match WIN_LINES.find? (lineWins b) with
  | some l => cell b l.1
  | none => if b.all (fun c => c.isSome) then some "draw" else none

/-- Some line holds three equal truthy markers. -/
def hasLine (b : Board) : Bool := WIN_LINES.any (lineWins b)

/-- All 9 cells are occupied (`all(x is not None for x in board)`). -/
def boardFull (b : Board) : Bool := b.all (fun c => c.isSome)

/-- `new_board()`. -/
def new_board : Board := List.replicate 9 none

/-! ### Match state -/

structure Game where
  id : String
  board : Board
  players : List String
  turn : String
  symbols : List (String × String)
  state : String
  winner : Option String
deriving DecidableEq, Repr

/-- Python dict insertion on a key-ordered association list: replacing
the value if the key is present, else appending; this models the
construction `{players[0]: "X", players[1]: "O"}` including the case of
a duplicate key. -/
def dictInsert (d : List (String × String)) (k v : String) : List (String × String) :=
  if d.any (fun p => p.1 == k) then d.map (fun p => if p.1 == k then (k, v) else p)
  else d ++ [(k, v)]

/-- Python `starting or players[0]`: `None` and `""` fall back. -/
def pyOr (s : Option String) (dflt : String) : String :=
  match s with
  | none => dflt
  | some t => if t == "" then dflt else t

/-- `create_game` (identical in both service files, `created_at` omitted):
validated payload has exactly two players. -/
def create_game (gid p0 p1 : String) (starting : Option String) : Game :=
  { id := gid
    board := new_board
    players := [p0, p1]
    turn := pyOr starting p0
    symbols := dictInsert (dictInsert [] p0 "X") p1 "O"
    state := "in_progress"
    winner := none }

inductive MoveError where
  | notInProgress
  | notAPlayer
  | notYourTurn
  | invalidMove
  | invalidPosition
  | cellTaken
  | keyError
  | noSymbol
  | unpackError
  | invalidPlayer
deriving DecidableEq, Repr

/-- Post-validation body of the move branch of
`src/game_rules_service/main.py` (lines 254-271): place the caller's
symbol, run `check_winner`, then either finish with winner `"draw"`,
finish with winner set directly to the mover's username, or flip the
turn (the tuple unpacking `p0, p1 = g["players"]` needs exactly two
players). -/
def moveBody_v1 (g : Game) (u : String) (i : Nat) (sym : String) : Except MoveError Game :=
  let b' := g.board.set i (some sym)
  let w := check_winner b'
  if w = some "draw" then
    .ok { g with board := b', state := "finished", winner := some "draw" }
  else if w = some "X" ∨ w = some "O" then
    .ok { g with board := b', state := "finished", winner := some u }
  else
    match g.players with
    | [q0, q1] => .ok { g with board := b', turn := if g.turn = q0 then q1 else q0 }
    | _ => .error .unpackError

/-- Move branch of `src/game_rules_service/main.py` (lines 226-271):
validation order is state, membership, turn, then position/occupancy in
one combined check; `g["symbols"][username]` raising `KeyError` is the
`keyError` result. -/
def applyMove_v1 (g : Game) (u : String) (pos : Int) : Except MoveError Game :=
  if g.state ≠ "in_progress" then .error .notInProgress
  else if u ∉ g.players then .error .notAPlayer
  else if g.turn ≠ u then .error .notYourTurn
  else if pos < 0 ∨ 8 < pos ∨ (cell g.board pos.toNat).isSome = true then .error .invalidMove
  else
    match g.symbols.lookup u with
    | none => .error .keyError
    | some sym => moveBody_v1 g u pos.toNat sym

/-- Winner resolution of the nested service variant: iterate the symbol
dict in insertion order and assign the first player owning the winning
marker; if none matches, the previous winner value is kept. -/
def resolveWinner (symbols : List (String × String)) (w : Option String)
    (old : Option String) : Option String :=
  match symbols.find? (fun ps => some ps.2 == w) with
  | some ps => some ps.1
  | none => old

/-- Post-validation body of the move branch of
`src/game_rules_service/game_rules_service/main.py` (lines 289-309):
same as `moveBody_v1` except the winner is resolved from marker
ownership, and the turn flip indexes `players[0]`/`players[1]`. -/
def moveBody_v2 (g : Game) (_u : String) (i : Nat) (sym : String) : Except MoveError Game :=
  let b' := g.board.set i (some sym)
  let w := check_winner b'
  if w = some "draw" then
    .ok { g with board := b', state := "finished", winner := some "draw" }
  else if w = some "X" ∨ w = some "O" then
    .ok { g with board := b', state := "finished", winner := resolveWinner g.symbols w g.winner }
  else
    match g.players with
    | q0 :: q1 :: _ => .ok { g with board := b', turn := if g.turn = q0 then q1 else q0 }
    | _ => .error .unpackError

/-- Move branch of `src/game_rules_service/game_rules_service/main.py`
(lines 256-309): position range and occupancy are separate checks, and a
missing symbol is reported instead of raised. -/
def applyMove_v2 (g : Game) (u : String) (pos : Int) : Except MoveError Game :=
  if g.state ≠ "in_progress" then .error .notInProgress
  else if u ∉ g.players then .error .notAPlayer
  else if g.turn ≠ u then .error .notYourTurn
  else if pos < 0 ∨ 8 < pos then .error .invalidPosition
  else if (cell g.board pos.toNat).isSome = true then .error .cellTaken
  else
    match g.symbols.lookup u with
    | none => .error .noSymbol
    | some sym => moveBody_v2 g u pos.toNat sym

/-- The `set_turn` branch of `src/game_rules_service/main.py`
(lines 197-224): both caller and target must be participants; the turn
is then force-set with no further game-logic validation (the game state
is not checked). -/
def set_turn (g : Game) (u newPlayer : String) : Except MoveError Game :=
  if u ∉ g.players then .error .notAPlayer
  else if newPlayer ∉ g.players then .error .invalidPlayer
  else .ok { g with turn := newPlayer }

/-! ### Reachable match states and their invariant -/

/-- Cells only ever hold the two markers assigned at creation. -/
def validCell (c : Option String) : Prop := c = none ∨ c = some "X" ∨ c = some "O"

def WFBoard (b : Board) : Prop := b.length = 9 ∧ ∀ c ∈ b, validCell c

/-- The participant list and symbol dict have the shape produced by
`create_game` (no operation ever rewrites them). -/
def SymShape (g : Game) : Prop :=
  ∃ p0 p1, g.players = [p0, p1] ∧ g.symbols = dictInsert (dictInsert [] p0 "X") p1 "O"

/-- Invariant of every reachable match: a well-formed board, the created
player/symbol shape, a lifecycle state among the two documented ones,
no winning line and no full board while `in_progress`, and a winning
line or a full board once `finished`. -/
def Inv (g : Game) : Prop :=
  WFBoard g.board ∧ SymShape g ∧
  (g.state = "in_progress" ∨ g.state = "finished") ∧
  (g.state = "in_progress" → hasLine g.board = false ∧ boardFull g.board = false) ∧
  (g.state = "finished" → hasLine g.board = true ∨ boardFull g.board = true)

/-- Match states reachable through the service operations: creation,
either variant's move application, and the turn override. -/
inductive Reachable : Game → Prop where
  | create (gid p0 p1 : String) (starting : Option String) :
      Reachable (create_game gid p0 p1 starting)
  | move_v1 {g g' : Game} (u : String) (p : Int) :
      Reachable g → applyMove_v1 g u p = .ok g' → Reachable g'
  | move_v2 {g g' : Game} (u : String) (p : Int) :
      Reachable g → applyMove_v2 g u p = .ok g' → Reachable g'
  | override {g g' : Game} (u t : String) :
      Reachable g → set_turn g u t = .ok g' → Reachable g'

/-! ### Room service -/

structure Room where
  id : String
  name : String
  host : String
  players : List String
  state : String
  max_players : Int
deriving DecidableEq, Repr

inductive RoomError where
  | notFound
  | roomFull
  | forbidden
  | insufficientPlayers
deriving DecidableEq, Repr

/-- `join_room` from `src/room_service/main.py` (lines 110-126) on a
room that exists.  The boolean records whether the Handoff Notifier was
triggered (`notify_in_background` called). -/
def join_room (room : Room) (username : String) : Except RoomError (Room × Bool) :=
  if username ∈ room.players then .ok (room, false)
  else if room.max_players ≤ (room.players.length : Int) then .error .roomFull
  else if room.max_players ≤ ((room.players ++ [username]).length : Int) then
    .ok ({ room with players := room.players ++ [username], state := "full" }, true)
  else .ok ({ room with players := room.players ++ [username] }, false)

def joinStep (acc : Room × Nat) (u : String) : Room × Nat :=
  match join_room acc.1 u with
  | .ok (r, t) => (r, if t then acc.2 + 1 else acc.2)
  | .error _ => acc

/-- A sequence of `join_room` calls against one room, counting how many
of them triggered the Handoff Notifier (failed joins change nothing). -/
def joinSeq (room : Room) (us : List String) : Room × Nat :=
  us.foldl joinStep (room, 0)

/-- `leave_room` from `src/room_service/main.py` (lines 134-149):
remove the first occurrence of the username if present, destroy the
room (`none`) if no player remains, otherwise reassign the host to
`players[0]` when the host is gone and set the state to `"waiting"`. -/
def leave_room (room : Room) (username : String) : Option Room :=
  match room.players.erase username with
  | [] => none
  | p :: rest =>
    some { room with
      players := p :: rest
      host := if room.host ∈ p :: rest then room.host else p
      state := "waiting" }

/-- `start_game` from `src/room_service/main.py` (lines 151-174) on a
room that exists; the boolean records the `notify_in_background` call. -/
def start_game (room : Room) (username : String) : Except RoomError (Room × Bool) :=
  if username = "" ∨ username ≠ room.host then .error .forbidden
  else if room.players.length < 2 then .error .insufficientPlayers
  else .ok ({ room with state := "full" }, true)

/-! ### Handoff notifier -/

/-- The success test of `notify_game_service_of_full_room`: only HTTP
200 and 201 stop the retry loop. -/
def attempt_ok (status : Option Int) : Bool :=
  status == some 200 || status == some 201

/-- Retry loop of `notify_game_service_of_full_room` (lines 51-76 of
`src/room_service/main.py`), with the oracle giving the response status
of each numbered attempt (`none` = request raised). -/
def notifyFrom (oracle : Nat → Option Int) : Nat → Nat → Bool
  | _, 0 => false
  | attempt, r + 1 =>
    if attempt_ok (oracle attempt) then true else notifyFrom oracle (attempt + 1) r

/-- `notify_game_service_of_full_room`: attempts `1 .. max_retries`,
returning whether delivery was accepted. -/
def notify_game_service_of_full_room (oracle : Nat → Option Int) (max_retries : Nat) : Bool :=
  notifyFrom oracle 1 max_retries

/-- HTTP status that `create_game` (lines 129-136 of
`src/game_rules_service/main.py`) answers: 400 `"Game exists"` when the
match id is already stored, 201 otherwise. -/
def create_game_status (gameExists : Bool) : Int :=
  if gameExists then 400 else 201

end TTT


namespace TTT

/-! ### Helper lemmas about boards and `check_winner` -/

lemma cell_set_eq : ∀ (b : Board) (i : Nat) (x : Option String), i < b.length →
    cell (b.set i x) i = x
  | _ :: _, 0, _, _ => rfl
  | _ :: cs, i + 1, x, h => cell_set_eq cs i x (Nat.lt_of_succ_lt_succ h)
  | [], i, _, h => absurd h (Nat.not_lt_zero i)

lemma cell_set_ne : ∀ (b : Board) (i j : Nat) (x : Option String), j ≠ i →
    cell (b.set i x) j = cell b j
  | [], _, _, _, _ => rfl
  | _ :: _, 0, 0, _, h => absurd rfl h
  | _ :: _, 0, _ + 1, _, _ => rfl
  | _ :: _, _ + 1, 0, _, _ => rfl
  | _ :: cs, i + 1, j + 1, x, h =>
    cell_set_ne cs i j x (fun e => h (by rw [e]))

lemma mem_set_cases : ∀ (b : Board) (i : Nat) (x c : Option String),
    c ∈ b.set i x → c ∈ b ∨ c = x
  | [], _, _, _, h => Or.inl h
  | _ :: _, 0, _, _, h => by
      rcases List.mem_cons.mp h with h | h
      · exact Or.inr h
      · exact Or.inl (List.mem_cons_of_mem _ h)
  | a :: as, i + 1, x, c, h => by
      rcases List.mem_cons.mp h with h | h
      · exact Or.inl (h ▸ List.mem_cons_self a as)
      · rcases mem_set_cases as i x c h with h' | h'
        · exact Or.inl (List.mem_cons_of_mem _ h')
        · exact Or.inr h'

lemma cell_mem : ∀ (b : Board) (i : Nat), i < b.length → cell b i ∈ b
  | c :: cs, 0, _ => List.mem_cons_self c cs
  | _ :: cs, i + 1, h => List.mem_cons_of_mem _ (cell_mem cs i (Nat.lt_of_succ_lt_succ h))
  | [], i, h => absurd h (Nat.not_lt_zero i)

lemma hasLine_false_iff {b : Board} :
    hasLine b = false ↔ ∀ l ∈ WIN_LINES, lineWins b l = false := by
  simp [hasLine, List.any_eq_false]

lemma lineWins_iff {b : Board} {l : Nat × Nat × Nat} :
    lineWins b l = true ↔
      truthy (cell b l.1) = true ∧ cell b l.1 = cell b l.2.1 ∧
        cell b l.2.1 = cell b l.2.2 := by
  simp [lineWins, Bool.and_eq_true, and_assoc]

lemma check_winner_noline {b : Board} (h : hasLine b = false) :
    check_winner b = if boardFull b = true then some "draw" else none := by
  have hf : WIN_LINES.find? (lineWins b) = none := by
    rw [List.find?_eq_none]
    intro l hl
    simp [hasLine_false_iff.mp h l hl]
  rw [check_winner, hf]
  simp [boardFull]

lemma check_winner_line {b : Board} (h : hasLine b = true) :
    ∃ l, l ∈ WIN_LINES ∧ lineWins b l = true ∧ check_winner b = cell b l.1 := by
  have hex : ∃ l, WIN_LINES.find? (lineWins b) = some l := by
    rw [hasLine, List.any_eq_true] at h
    rw [← Option.isSome_iff_exists, List.find?_isSome]
    simpa using h
  obtain ⟨l, hfind⟩ := hex
  exact ⟨l, List.mem_of_find?_eq_some hfind, List.find?_some hfind, by rw [check_winner, hfind]⟩

lemma truthy_valid {c : Option String} (hv : validCell c) (ht : truthy c = true) :
    c = some "X" ∨ c = some "O" := by
  rcases hv with h | h | h
  · rw [h] at ht; exact absurd ht (by decide)
  · exact Or.inl h
  · exact Or.inr h

lemma win_lines_lt : ∀ l ∈ WIN_LINES, l.1 < 9 ∧ l.2.1 < 9 ∧ l.2.2 < 9 := by decide

lemma check_winner_line_valid {b : Board} (hlen : b.length = 9)
    (hv : ∀ c ∈ b, validCell c) (h : hasLine b = true) :
    check_winner b = some "X" ∨ check_winner b = some "O" := by
  obtain ⟨l, hl, hw, hcw⟩ := check_winner_line h
  have hm : cell b l.1 ∈ b := cell_mem b l.1 (by rw [hlen]; exact (win_lines_lt l hl).1)
  have := truthy_valid (hv _ hm) (lineWins_iff.mp hw).1
  rw [hcw]
  exact this

lemma line_through_set {b : Board} {i : Nat} {x : Option String} {l : Nat × Nat × Nat}
    (hnl : lineWins b l = false) (hw : lineWins (b.set i x) l = true) :
    i = l.1 ∨ i = l.2.1 ∨ i = l.2.2 := by
  by_contra hc
  push_neg at hc
  obtain ⟨h1, h2, h3⟩ := hc
  rw [lineWins, cell_set_ne b i l.1 x (Ne.symm h1), cell_set_ne b i l.2.1 x (Ne.symm h2),
      cell_set_ne b i l.2.2 x (Ne.symm h3), ← lineWins, hnl] at hw
  exact Bool.noConfusion hw

lemma new_line_symbol {b : Board} {i : Nat} {s : String} (hi : i < b.length)
    (hnl : hasLine b = false) {l : Nat × Nat × Nat} (hl : l ∈ WIN_LINES)
    (hw : lineWins (b.set i (some s)) l = true) :
    cell (b.set i (some s)) l.1 = some s := by
  have hnll : lineWins b l = false := hasLine_false_iff.mp hnl l hl
  have hidx := line_through_set hnll hw
  have hci : cell (b.set i (some s)) i = some s := cell_set_eq b i (some s) hi
  obtain ⟨-, he1, he2⟩ := lineWins_iff.mp hw
  rcases hidx with h | h | h
  · rw [← h]; exact hci
  · rw [he1, ← h]; exact hci
  · rw [he1, he2, ← h]; exact hci

lemma check_winner_new_line {b : Board} {i : Nat} {s : String} (hi : i < b.length)
    (hnl : hasLine b = false) (hL : hasLine (b.set i (some s)) = true) :
    check_winner (b.set i (some s)) = some s := by
  obtain ⟨l, hl, hw, hcw⟩ := check_winner_line hL
  rw [hcw]
  exact new_line_symbol hi hnl hl hw

end TTT

namespace TTT

/-! ### Symbol dictionary lemmas -/

lemma dictInsert_pair {p0 p1 : String} (h : p0 ≠ p1) :
    dictInsert (dictInsert [] p0 "X") p1 "O" = [(p0, "X"), (p1, "O")] := by
  simp [dictInsert, h]

lemma dictInsert_pair_self (p0 : String) :
    dictInsert (dictInsert [] p0 "X") p0 "O" = [(p0, "O")] := by
  simp [dictInsert]

lemma symShape_lookup {g : Game} {u : String} (h : SymShape g) (hmem : u ∈ g.players) :
    ∃ s, g.symbols.lookup u = some s ∧ (s = "X" ∨ s = "O") := by
  obtain ⟨p0, p1, hp, hsy⟩ := h
  rw [hp] at hmem
  by_cases hpp : p0 = p1
  · subst hpp
    have hu : u = p0 := by simpa using hmem
    subst hu
    rw [hsy, dictInsert_pair_self]
    exact ⟨"O", by simp [List.lookup], Or.inr rfl⟩
  · rw [hsy, dictInsert_pair hpp]
    rcases (by simpa using hmem : u = p0 ∨ u = p1) with hu | hu
    · subst hu
      exact ⟨"X", by simp [List.lookup], Or.inl rfl⟩
    · subst hu
      have hne : (u == p0) = false := by
        rw [beq_eq_false_iff_ne]
        exact Ne.symm hpp
      exact ⟨"O", by simp [List.lookup, hne], Or.inr rfl⟩

lemma symShape_resolve {g : Game} {u s : String} (h : SymShape g) (hmem : u ∈ g.players)
    (hl : g.symbols.lookup u = some s) :
    resolveWinner g.symbols (some s) g.winner = some u := by
  obtain ⟨p0, p1, hp, hsy⟩ := h
  rw [hp] at hmem
  by_cases hpp : p0 = p1
  · subst hpp
    have hu : u = p0 := by simpa using hmem
    subst hu
    rw [hsy, dictInsert_pair_self] at hl ⊢
    have hlv : List.lookup u [(u, "O")] = some "O" := by simp [List.lookup]
    rw [hlv] at hl
    injection hl with hl
    subst hl
    simp [resolveWinner]
  · rw [hsy, dictInsert_pair hpp] at hl ⊢
    rcases (by simpa using hmem : u = p0 ∨ u = p1) with hu | hu
    · subst hu
      have hlv : List.lookup u [(u, "X"), (p1, "O")] = some "X" := by simp [List.lookup]
      rw [hlv] at hl
      injection hl with hl
      subst hl
      simp [resolveWinner]
    · subst hu
      have hne : (u == p0) = false := by
        rw [beq_eq_false_iff_ne]
        exact Ne.symm hpp
      have hlv : List.lookup u [(p0, "X"), (u, "O")] = some "O" := by
        simp [List.lookup, hne]
      rw [hlv] at hl
      injection hl with hl
      subst hl
      simp [resolveWinner]

end TTT

namespace TTT

/-! ### Unfolding and inversion of the move application -/

/-- The state any successful validated move produces (used only in proofs and
statements; both variants are proved equal to it on reachable states). -/
def moveResult (g : Game) (u : String) (i : Nat) (sym q0 q1 : String) : Game :=
  if hasLine (g.board.set i (some sym)) = true then
    { g with board := g.board.set i (some sym), state := "finished", winner := some u }
  else if boardFull (g.board.set i (some sym)) = true then
    { g with board := g.board.set i (some sym), state := "finished", winner := some "draw" }
  else
    { g with board := g.board.set i (some sym), turn := if g.turn = q0 then q1 else q0 }

lemma applyMove_v1_validated {g : Game} {u : String} {pos : Int} {sym : String}
    (hs : g.state = "in_progress") (hmem : u ∈ g.players) (hturn : g.turn = u)
    (h0 : 0 ≤ pos) (h8 : pos ≤ 8) (hfree : cell g.board pos.toNat = none)
    (hsym : g.symbols.lookup u = some sym) :
    applyMove_v1 g u pos = moveBody_v1 g u pos.toNat sym := by
  unfold applyMove_v1
  rw [if_neg (by simp [hs]), if_neg (by simp [hmem]), if_neg (by simp [hturn]),
      if_neg (by simp [hfree]; omega), hsym]

lemma applyMove_v2_validated {g : Game} {u : String} {pos : Int} {sym : String}
    (hs : g.state = "in_progress") (hmem : u ∈ g.players) (hturn : g.turn = u)
    (h0 : 0 ≤ pos) (h8 : pos ≤ 8) (hfree : cell g.board pos.toNat = none)
    (hsym : g.symbols.lookup u = some sym) :
    applyMove_v2 g u pos = moveBody_v2 g u pos.toNat sym := by
  unfold applyMove_v2
  rw [if_neg (by simp [hs]), if_neg (by simp [hmem]), if_neg (by simp [hturn]),
      if_neg (by omega), if_neg (by simp [hfree]), hsym]

lemma applyMove_v1_ok {g g' : Game} {u : String} {pos : Int}
    (h : applyMove_v1 g u pos = .ok g') :
    g.state = "in_progress" ∧ u ∈ g.players ∧ g.turn = u ∧ 0 ≤ pos ∧ pos ≤ 8 ∧
      cell g.board pos.toNat = none ∧
      ∃ sym, g.symbols.lookup u = some sym ∧ moveBody_v1 g u pos.toNat sym = .ok g' := by
  unfold applyMove_v1 at h
  by_cases h1 : g.state ≠ "in_progress"
  · rw [if_pos h1] at h; exact Except.noConfusion h
  rw [if_neg h1] at h
  by_cases h2 : u ∉ g.players
  · rw [if_pos h2] at h; exact Except.noConfusion h
  rw [if_neg h2] at h
  by_cases h3 : g.turn ≠ u
  · rw [if_pos h3] at h; exact Except.noConfusion h
  rw [if_neg h3] at h
  by_cases h4 : pos < 0 ∨ 8 < pos ∨ (cell g.board pos.toNat).isSome = true
  · rw [if_pos h4] at h; exact Except.noConfusion h
  rw [if_neg h4] at h
  push_neg at h4
  obtain ⟨h41, h42, h43⟩ := h4
  cases hsym : g.symbols.lookup u with
  | none => rw [hsym] at h; exact Except.noConfusion h
  | some sym =>
    rw [hsym] at h
    exact ⟨not_not.mp h1, not_not.mp h2, not_not.mp h3, h41, h42,
      Option.not_isSome_iff_eq_none.mp (by simpa using h43), sym, rfl, h⟩

lemma applyMove_v2_ok {g g' : Game} {u : String} {pos : Int}
    (h : applyMove_v2 g u pos = .ok g') :
    g.state = "in_progress" ∧ u ∈ g.players ∧ g.turn = u ∧ 0 ≤ pos ∧ pos ≤ 8 ∧
      cell g.board pos.toNat = none ∧
      ∃ sym, g.symbols.lookup u = some sym ∧ moveBody_v2 g u pos.toNat sym = .ok g' := by
  unfold applyMove_v2 at h
  by_cases h1 : g.state ≠ "in_progress"
  · rw [if_pos h1] at h; exact Except.noConfusion h
  rw [if_neg h1] at h
  by_cases h2 : u ∉ g.players
  · rw [if_pos h2] at h; exact Except.noConfusion h
  rw [if_neg h2] at h
  by_cases h3 : g.turn ≠ u
  · rw [if_pos h3] at h; exact Except.noConfusion h
  rw [if_neg h3] at h
  by_cases h4 : pos < 0 ∨ 8 < pos
  · rw [if_pos h4] at h; exact Except.noConfusion h
  rw [if_neg h4] at h
  by_cases h5 : (cell g.board pos.toNat).isSome = true
  · rw [if_pos h5] at h; exact Except.noConfusion h
  rw [if_neg h5] at h
  push_neg at h4
  obtain ⟨h41, h42⟩ := h4
  cases hsym : g.symbols.lookup u with
  | none => rw [hsym] at h; exact Except.noConfusion h
  | some sym =>
    rw [hsym] at h
    exact ⟨not_not.mp h1, not_not.mp h2, not_not.mp h3, h41, h42,
      Option.not_isSome_iff_eq_none.mp (by simpa using h5), sym, rfl, h⟩

lemma set_turn_ok {g g' : Game} {u t : String} (h : set_turn g u t = .ok g') :
    u ∈ g.players ∧ t ∈ g.players ∧ g' = { g with turn := t } := by
  unfold set_turn at h
  by_cases h1 : u ∉ g.players
  · rw [if_pos h1] at h; exact Except.noConfusion h
  rw [if_neg h1] at h
  by_cases h2 : t ∉ g.players
  · rw [if_pos h2] at h; exact Except.noConfusion h
  rw [if_neg h2] at h
  injection h with h
  exact ⟨not_not.mp h1, not_not.mp h2, h.symm⟩

end TTT

namespace TTT

/-! ### Case analysis of the post-validation move body -/

lemma moveBody_v1_line {g : Game} {u sym : String} {i : Nat}
    (hlen : g.board.length = 9) (hv : ∀ c ∈ g.board, validCell c)
    (hXO : sym = "X" ∨ sym = "O")
    (hL : hasLine (g.board.set i (some sym)) = true) :
    moveBody_v1 g u i sym =
      .ok { g with board := g.board.set i (some sym), state := "finished",
                   winner := some u } := by
  have hv' : ∀ c ∈ g.board.set i (some sym), validCell c := by
    intro c hc
    rcases mem_set_cases _ _ _ _ hc with h | h
    · exact hv c h
    · rcases hXO with h' | h' <;> rw [h, h']
      · exact Or.inr (Or.inl rfl)
      · exact Or.inr (Or.inr rfl)
  have hlen' : (g.board.set i (some sym)).length = 9 := by
    rw [List.length_set]; exact hlen
  simp only [moveBody_v1]
  rcases check_winner_line_valid hlen' hv' hL with hcw | hcw <;> rw [hcw]
  · rw [if_neg (show ¬(some "X" = some "draw") by decide)]
    rw [if_pos (show some "X" = some "X" ∨ some "X" = some "O" from Or.inl rfl)]
  · rw [if_neg (show ¬(some "O" = some "draw") by decide)]
    rw [if_pos (show some "O" = some "X" ∨ some "O" = some "O" from Or.inr rfl)]

lemma moveBody_v1_draw {g : Game} {u sym : String} {i : Nat}
    (hL : hasLine (g.board.set i (some sym)) = false)
    (hF : boardFull (g.board.set i (some sym)) = true) :
    moveBody_v1 g u i sym =
      .ok { g with board := g.board.set i (some sym), state := "finished",
                   winner := some "draw" } := by
  have hcw : check_winner (g.board.set i (some sym)) = some "draw" := by
    rw [check_winner_noline hL, if_pos hF]
  simp only [moveBody_v1]
  rw [hcw, if_pos rfl]

lemma moveBody_v1_flip {g : Game} {u sym : String} {i : Nat} {q0 q1 : String}
    (hp : g.players = [q0, q1])
    (hL : hasLine (g.board.set i (some sym)) = false)
    (hF : boardFull (g.board.set i (some sym)) = false) :
    moveBody_v1 g u i sym =
      .ok { g with board := g.board.set i (some sym),
                   turn := if g.turn = q0 then q1 else q0 } := by
  have hcw : check_winner (g.board.set i (some sym)) = none := by
    rw [check_winner_noline hL, if_neg (by simp [hF])]
  simp only [moveBody_v1]
  rw [hcw, if_neg (show ¬((none : Option String) = some "draw") by decide)]
  rw [if_neg (show ¬((none : Option String) = some "X" ∨ (none : Option String) = some "O")
        by decide)]
  rw [hp]

lemma moveBody_v2_line {g : Game} {u sym : String} {i : Nat}
    (hlen : g.board.length = 9) (hi : i < 9)
    (hshape : SymShape g) (hmem : u ∈ g.players)
    (hlk : g.symbols.lookup u = some sym) (hXO : sym = "X" ∨ sym = "O")
    (hnl : hasLine g.board = false)
    (hL : hasLine (g.board.set i (some sym)) = true) :
    moveBody_v2 g u i sym =
      .ok { g with board := g.board.set i (some sym), state := "finished",
                   winner := some u } := by
  have hcw : check_winner (g.board.set i (some sym)) = some sym :=
    check_winner_new_line (by rw [hlen]; exact hi) hnl hL
  have hres : resolveWinner g.symbols (some sym) g.winner = some u :=
    symShape_resolve hshape hmem hlk
  have hne : ¬(some sym = some "draw") := by
    rcases hXO with h | h <;> subst h <;> decide
  have hor : some sym = some "X" ∨ some sym = some "O" := by
    rcases hXO with h | h <;> subst h
    · exact Or.inl rfl
    · exact Or.inr rfl
  simp only [moveBody_v2]
  rw [hcw, if_neg hne, if_pos hor, hres]

lemma moveBody_v2_draw {g : Game} {u sym : String} {i : Nat}
    (hL : hasLine (g.board.set i (some sym)) = false)
    (hF : boardFull (g.board.set i (some sym)) = true) :
    moveBody_v2 g u i sym =
      .ok { g with board := g.board.set i (some sym), state := "finished",
                   winner := some "draw" } := by
  have hcw : check_winner (g.board.set i (some sym)) = some "draw" := by
    rw [check_winner_noline hL, if_pos hF]
  simp only [moveBody_v2]
  rw [hcw, if_pos rfl]

lemma moveBody_v2_flip {g : Game} {u sym : String} {i : Nat} {q0 q1 : String}
    (hp : g.players = [q0, q1])
    (hL : hasLine (g.board.set i (some sym)) = false)
    (hF : boardFull (g.board.set i (some sym)) = false) :
    moveBody_v2 g u i sym =
      .ok { g with board := g.board.set i (some sym),
                   turn := if g.turn = q0 then q1 else q0 } := by
  have hcw : check_winner (g.board.set i (some sym)) = none := by
    rw [check_winner_noline hL, if_neg (by simp [hF])]
  simp only [moveBody_v2]
  rw [hcw, if_neg (show ¬((none : Option String) = some "draw") by decide)]
  rw [if_neg (show ¬((none : Option String) = some "X" ∨ (none : Option String) = some "O")
        by decide)]
  rw [hp]

/-- On a reachable-style state, a validated move succeeds in both variants and
produces the same `moveResult`. -/
lemma move_master {g : Game} {u : String} {pos : Int}
    (hInv : Inv g) (hs : g.state = "in_progress") (hmem : u ∈ g.players)
    (hturn : g.turn = u) (h0 : 0 ≤ pos) (h8 : pos ≤ 8)
    (hfree : cell g.board pos.toNat = none) :
    ∃ sym q0 q1, g.symbols.lookup u = some sym ∧ (sym = "X" ∨ sym = "O") ∧
      g.players = [q0, q1] ∧
      applyMove_v1 g u pos = .ok (moveResult g u pos.toNat sym q0 q1) ∧
      applyMove_v2 g u pos = .ok (moveResult g u pos.toNat sym q0 q1) := by
  obtain ⟨⟨hlen, hv⟩, hshape, hstates, hprog, hfin⟩ := hInv
  obtain ⟨hnl, hnf⟩ := hprog hs
  obtain ⟨sym, hlk, hXO⟩ := symShape_lookup hshape hmem
  obtain ⟨q0, q1, hp, hsy⟩ := hshape
  have hi : pos.toNat < 9 := by omega
  refine ⟨sym, q0, q1, hlk, hXO, hp, ?_, ?_⟩
  · rw [applyMove_v1_validated hs hmem hturn h0 h8 hfree hlk]
    unfold moveResult
    by_cases hL : hasLine (g.board.set pos.toNat (some sym)) = true
    · rw [if_pos hL, moveBody_v1_line hlen hv hXO hL]
    · rw [if_neg hL]
      have hL' : hasLine (g.board.set pos.toNat (some sym)) = false := by
        simpa using hL
      by_cases hF : boardFull (g.board.set pos.toNat (some sym)) = true
      · rw [if_pos hF, moveBody_v1_draw hL' hF]
      · have hF' : boardFull (g.board.set pos.toNat (some sym)) = false := by
          simpa using hF
        rw [if_neg hF, moveBody_v1_flip hp hL' hF']
  · rw [applyMove_v2_validated hs hmem hturn h0 h8 hfree hlk]
    unfold moveResult
    by_cases hL : hasLine (g.board.set pos.toNat (some sym)) = true
    · rw [if_pos hL, moveBody_v2_line hlen hi ⟨q0, q1, hp, hsy⟩ hmem hlk hXO hnl hL]
    · rw [if_neg hL]
      have hL' : hasLine (g.board.set pos.toNat (some sym)) = false := by
        simpa using hL
      by_cases hF : boardFull (g.board.set pos.toNat (some sym)) = true
      · rw [if_pos hF, moveBody_v2_draw hL' hF]
      · have hF' : boardFull (g.board.set pos.toNat (some sym)) = false := by
          simpa using hF
        rw [if_neg hF, moveBody_v2_flip hp hL' hF']

end TTT

namespace TTT

/-! ### The invariant holds on all reachable match states -/

lemma inv_moveResult {g : Game} {u : String} {i : Nat} {sym q0 q1 : String}
    (hInv : Inv g) (hs : g.state = "in_progress") (hXO : sym = "X" ∨ sym = "O") :
    Inv (moveResult g u i sym q0 q1) := by
  obtain ⟨⟨hlen, hv⟩, hshape, -, -, -⟩ := hInv
  have hv' : ∀ c ∈ g.board.set i (some sym), validCell c := by
    intro c hc
    rcases mem_set_cases _ _ _ _ hc with h | h
    · exact hv c h
    · rcases hXO with h' | h' <;> rw [h, h']
      · exact Or.inr (Or.inl rfl)
      · exact Or.inr (Or.inr rfl)
  have hlen' : (g.board.set i (some sym)).length = 9 := by
    rw [List.length_set]; exact hlen
  obtain ⟨p0', p1', hp', hsy'⟩ := hshape
  unfold moveResult
  by_cases hL : hasLine (g.board.set i (some sym)) = true
  · rw [if_pos hL]
    exact ⟨⟨hlen', hv'⟩, ⟨p0', p1', hp', hsy'⟩, Or.inr rfl,
      fun hcon => absurd (show "finished" = "in_progress" from hcon) (by decide),
      fun _ => Or.inl hL⟩
  · rw [if_neg hL]
    have hLf : hasLine (g.board.set i (some sym)) = false := by simpa using hL
    by_cases hF : boardFull (g.board.set i (some sym)) = true
    · rw [if_pos hF]
      exact ⟨⟨hlen', hv'⟩, ⟨p0', p1', hp', hsy'⟩, Or.inr rfl,
        fun hcon => absurd (show "finished" = "in_progress" from hcon) (by decide),
        fun _ => Or.inr hF⟩
    · rw [if_neg hF]
      have hFf : boardFull (g.board.set i (some sym)) = false := by simpa using hF
      refine ⟨⟨hlen', hv'⟩, ⟨p0', p1', hp', hsy'⟩, Or.inl hs, fun _ => ⟨hLf, hFf⟩, ?_⟩
      intro hcon
      rw [hs] at hcon
      exact absurd hcon (by decide)

lemma inv_move_v1 {g g' : Game} {u : String} {pos : Int}
    (hInv : Inv g) (h : applyMove_v1 g u pos = .ok g') : Inv g' := by
  obtain ⟨hs, hmem, hturn, h0, h8, hfree, sym0, hsym0, hbody⟩ := applyMove_v1_ok h
  obtain ⟨sym, q0, q1, hlk, hXO, hp, hv1, hv2⟩ :=
    move_master hInv hs hmem hturn h0 h8 hfree
  rw [h] at hv1
  injection hv1 with hv1
  rw [hv1]
  exact inv_moveResult hInv hs hXO

lemma inv_move_v2 {g g' : Game} {u : String} {pos : Int}
    (hInv : Inv g) (h : applyMove_v2 g u pos = .ok g') : Inv g' := by
  obtain ⟨hs, hmem, hturn, h0, h8, hfree, sym0, hsym0, hbody⟩ := applyMove_v2_ok h
  obtain ⟨sym, q0, q1, hlk, hXO, hp, hv1, hv2⟩ :=
    move_master hInv hs hmem hturn h0 h8 hfree
  rw [h] at hv2
  injection hv2 with hv2
  rw [hv2]
  exact inv_moveResult hInv hs hXO

lemma inv_set_turn {g g' : Game} {u t : String} (hInv : Inv g)
    (h : set_turn g u t = .ok g') : Inv g' := by
  obtain ⟨-, -, hg⟩ := set_turn_ok h
  subst hg
  obtain ⟨hwf, ⟨p0, p1, hp, hsy⟩, hstates, hprog, hfin⟩ := hInv
  exact ⟨hwf, ⟨p0, p1, hp, hsy⟩, hstates, hprog, hfin⟩

lemma inv_create (gid p0 p1 : String) (st : Option String) :
    Inv (create_game gid p0 p1 st) := by
  refine ⟨⟨rfl, ?_⟩, ⟨p0, p1, rfl, rfl⟩, Or.inl rfl,
    fun _ => ⟨show hasLine new_board = false by decide,
      show boardFull new_board = false by decide⟩, ?_⟩
  · intro c hc
    have hcn : c = none := List.eq_of_mem_replicate hc
    rw [hcn]; exact Or.inl rfl
  · intro hcon
    exact absurd (show "in_progress" = "finished" from hcon) (by decide)

lemma reachable_inv {g : Game} (h : Reachable g) : Inv g := by
  induction h with
  | create gid p0 p1 st => exact inv_create gid p0 p1 st
  | move_v1 u p _ hstep ih => exact inv_move_v1 ih hstep
  | move_v2 u p _ hstep ih => exact inv_move_v2 ih hstep
  | override u t _ hstep ih => exact inv_set_turn ih hstep

end TTT

namespace TTT

/-- C1: for every reachable match in state `in_progress` and every move whose
caller is a participant holding the turn and whose position is an unoccupied
cell in `[0,8]`, both move-application variants write the caller's marker into
that cell and then: if a winning line exists the state becomes `finished` with
winner the caller's identity; else if all 9 cells are occupied the state
becomes `finished` with the draw sentinel; else the turn flips to the other
participant. -/
theorem C1_applyMove_success (g : Game) (u p0 p1 : String) (pos : Int)
    (hreach : Reachable g) (hp : g.players = [p0, p1]) (hne : p0 ≠ p1)
    (hs : g.state = "in_progress") (hmem : u ∈ g.players) (hturn : g.turn = u)
    (h0 : 0 ≤ pos) (h8 : pos ≤ 8) (hfree : cell g.board pos.toNat = none) :
    ∃ sym g', g.symbols.lookup u = some sym ∧
      applyMove_v1 g u pos = .ok g' ∧ applyMove_v2 g u pos = .ok g' ∧
      g'.board = g.board.set pos.toNat (some sym) ∧
      (hasLine g'.board = true → g'.state = "finished" ∧ g'.winner = some u) ∧
      (hasLine g'.board = false → boardFull g'.board = true →
        g'.state = "finished" ∧ g'.winner = some "draw") ∧
      (hasLine g'.board = false → boardFull g'.board = false →
        g'.state = "in_progress" ∧ g'.turn = (if u = p0 then p1 else p0) ∧
          g'.turn ≠ u) := by
  obtain ⟨sym, q0, q1, hlk, hXO, hp', hv1, hv2⟩ :=
    move_master (reachable_inv hreach) hs hmem hturn h0 h8 hfree
  rw [hp] at hp'
  obtain ⟨hq0, hq1⟩ : p0 = q0 ∧ p1 = q1 := by simpa using hp'
  subst hq0
  subst hq1
  have hboard : (moveResult g u pos.toNat sym p0 p1).board =
      g.board.set pos.toNat (some sym) := by
    unfold moveResult; split_ifs <;> rfl
  refine ⟨sym, moveResult g u pos.toNat sym p0 p1, hlk, hv1, hv2, hboard, ?_, ?_, ?_⟩
  · intro hL
    rw [hboard] at hL
    unfold moveResult
    rw [if_pos hL]
    exact ⟨rfl, rfl⟩
  · intro hL hF
    rw [hboard] at hL hF
    unfold moveResult
    rw [if_neg (by simp [hL]), if_pos hF]
    exact ⟨rfl, rfl⟩
  · intro hL hF
    rw [hboard] at hL hF
    unfold moveResult
    rw [if_neg (by simp [hL]), if_neg (by simp [hF])]
    refine ⟨hs, ?_, ?_⟩
    · rw [hturn]
    · rw [hturn]
      rcases (by rw [hp] at hmem; simpa using hmem : u = p0 ∨ u = p1) with hu | hu
      · subst hu
        rw [if_pos rfl]
        exact Ne.symm hne
      · subst hu
        rw [if_neg (fun e => hne e.symm)]
        exact hne

theorem C1_applyMove_success_witness :
    ∃ sym g', (create_game "g1" "a" "b" none).symbols.lookup "a" = some sym ∧
      applyMove_v1 (create_game "g1" "a" "b" none) "a" 0 = .ok g' ∧
      applyMove_v2 (create_game "g1" "a" "b" none) "a" 0 = .ok g' ∧
      g'.board = (create_game "g1" "a" "b" none).board.set (0 : Int).toNat (some sym) ∧
      (hasLine g'.board = true → g'.state = "finished" ∧ g'.winner = some "a") ∧
      (hasLine g'.board = false → boardFull g'.board = true →
        g'.state = "finished" ∧ g'.winner = some "draw") ∧
      (hasLine g'.board = false → boardFull g'.board = false →
        g'.state = "in_progress" ∧ g'.turn = (if "a" = "a" then "b" else "a") ∧
          g'.turn ≠ "a") :=
  C1_applyMove_success (create_game "g1" "a" "b" none) "a" "a" "b" 0
    (Reachable.create "g1" "a" "b" none) rfl (by decide) rfl (by decide) rfl
    (by decide) (by decide) rfl

/-- C10: every reachable match state with state `in_progress` has no completed
winning line on its board. -/
theorem C10_in_progress_no_line (g : Game) (h : Reachable g)
    (hs : g.state = "in_progress") : hasLine g.board = false :=
  ((reachable_inv h).2.2.2.1 hs).1

theorem C10_in_progress_no_line_witness :
    hasLine (create_game "g2" "a" "b" none).board = false :=
  C10_in_progress_no_line _ (Reachable.create "g2" "a" "b" none) rfl

/-- C4: on a `finished` match, both move-application variants reject any move
with the not-in-progress error; the error path returns before any write, so
the stored match is unchanged. -/
theorem C4_finished_move_rejected (g : Game) (u : String) (pos : Int)
    (h : g.state = "finished") :
    applyMove_v1 g u pos = .error .notInProgress ∧
    applyMove_v2 g u pos = .error .notInProgress := by
  constructor
  · unfold applyMove_v1
    rw [if_pos (by rw [h]; decide)]
  · unfold applyMove_v2
    rw [if_pos (by rw [h]; decide)]

def finishedGame : Game :=
  { id := "f"
    board := [some "X", some "X", some "X", some "O", some "O", none, none, none, none]
    players := ["a", "b"]
    turn := "a"
    symbols := [("a", "X"), ("b", "O")]
    state := "finished"
    winner := some "a" }

theorem C4_finished_move_rejected_witness :
    applyMove_v1 finishedGame "b" 5 = .error .notInProgress ∧
    applyMove_v2 finishedGame "b" 5 = .error .notInProgress :=
  C4_finished_move_rejected finishedGame "b" 5 rfl

/-- C2: a reachable match is `finished` exactly when a winning line exists or
the board is full, and the detections are applied line-first: a successful
move (in either variant) whose resulting board has a winning line and is full
sets the winner to the mover's identity, not the draw sentinel. -/
theorem C2_finished_iff_line_or_full (g : Game) (hreach : Reachable g) :
    (g.state = "finished" ↔
      (hasLine g.board = true ∨ boardFull g.board = true)) ∧
    (∀ u pos g', (applyMove_v1 g u pos = .ok g' ∨ applyMove_v2 g u pos = .ok g') →
      hasLine g'.board = true → boardFull g'.board = true →
      g'.winner = some u) := by
  obtain ⟨hwf, hshape, hstates, hprog, hfin⟩ := reachable_inv hreach
  constructor
  · constructor
    · exact hfin
    · intro hlf
      rcases hstates with hs | hs
      · obtain ⟨hl, hf⟩ := hprog hs
        rcases hlf with h | h
        · rw [hl] at h; exact absurd h (by decide)
        · rw [hf] at h; exact absurd h (by decide)
      · exact hs
  · intro u pos g' hok hL hF
    rcases hok with h | h
    · obtain ⟨hs, hmem, hturn, h0, h8, hfree, -, -, -⟩ := applyMove_v1_ok h
      obtain ⟨sym, q0, q1, -, hXO, -, hv1, -⟩ :=
        move_master ⟨hwf, hshape, hstates, hprog, hfin⟩ hs hmem hturn h0 h8 hfree
      rw [h] at hv1
      injection hv1 with hv1
      subst hv1
      have hboard : (moveResult g u pos.toNat sym q0 q1).board =
          g.board.set pos.toNat (some sym) := by
        unfold moveResult; split_ifs <;> rfl
      rw [hboard] at hL
      unfold moveResult
      rw [if_pos hL]
    · obtain ⟨hs, hmem, hturn, h0, h8, hfree, -, -, -⟩ := applyMove_v2_ok h
      obtain ⟨sym, q0, q1, -, hXO, -, -, hv2⟩ :=
        move_master ⟨hwf, hshape, hstates, hprog, hfin⟩ hs hmem hturn h0 h8 hfree
      rw [h] at hv2
      injection hv2 with hv2
      subst hv2
      have hboard : (moveResult g u pos.toNat sym q0 q1).board =
          g.board.set pos.toNat (some sym) := by
        unfold moveResult; split_ifs <;> rfl
      rw [hboard] at hL
      unfold moveResult
      rw [if_pos hL]

theorem C2_finished_iff_line_or_full_witness :
    (((create_game "g3" "a" "b" none).state = "finished") ↔
      (hasLine (create_game "g3" "a" "b" none).board = true ∨
       boardFull (create_game "g3" "a" "b" none).board = true)) ∧
    (∀ u pos g',
      (applyMove_v1 (create_game "g3" "a" "b" none) u pos = .ok g' ∨
       applyMove_v2 (create_game "g3" "a" "b" none) u pos = .ok g') →
      hasLine g'.board = true → boardFull g'.board = true →
      g'.winner = some u) :=
  C2_finished_iff_line_or_full _ (Reachable.create "g3" "a" "b" none)

/-- C9: on a reachable `in_progress` match, a move validated as coming from
the participant holding the turn at a free cell in range is applied
identically by the two observed variants: the marker-ownership winner
resolution and the direct mover assignment return the same match state. -/
theorem C9_variants_agree (g : Game) (u : String) (pos : Int)
    (hreach : Reachable g) (hs : g.state = "in_progress") (hmem : u ∈ g.players)
    (hturn : g.turn = u) (h0 : 0 ≤ pos) (h8 : pos ≤ 8)
    (hfree : cell g.board pos.toNat = none) :
    applyMove_v1 g u pos = applyMove_v2 g u pos ∧
    ∃ g', applyMove_v1 g u pos = .ok g' := by
  obtain ⟨sym, q0, q1, -, -, -, hv1, hv2⟩ :=
    move_master (reachable_inv hreach) hs hmem hturn h0 h8 hfree
  exact ⟨hv1.trans hv2.symm, _, hv1⟩

theorem C9_variants_agree_witness :
    applyMove_v1 (create_game "g4" "a" "b" none) "a" 4 =
      applyMove_v2 (create_game "g4" "a" "b" none) "a" 4 ∧
    ∃ g', applyMove_v1 (create_game "g4" "a" "b" none) "a" 4 = .ok g' :=
  C9_variants_agree (create_game "g4" "a" "b" none) "a" 4
    (Reachable.create "g4" "a" "b" none) rfl (by decide) rfl (by decide) (by decide) rfl

end TTT

namespace TTT

/-! ### C7: turn alternation -/

def c7g0 : Game := create_game "77" "a" "b" none

def c7g1 : Game :=
  { id := "77"
    board := [some "X", none, none, none, none, none, none, none, none]
    players := ["a", "b"]
    turn := "b"
    symbols := [("a", "X"), ("b", "O")]
    state := "in_progress"
    winner := none }

def c7g2 : Game := { c7g1 with turn := "a" }

def c7g3 : Game :=
  { c7g1 with board := [some "X", some "X", none, none, none, none, none, none, none] }

/-- C7 counterexample: in the sequence of accepted operations
move("a",0), set_turn override to "a", move("a",1) on a reachable
`in_progress` match, participant "a" makes two consecutive successful moves —
the turn does not strictly alternate once the `set_turn` command (reachable
over the same channel) is used. -/
theorem C7_alternation_counterexample :
    applyMove_v1 c7g0 "a" 0 = .ok c7g1 ∧
    set_turn c7g1 "a" "a" = .ok c7g2 ∧
    applyMove_v1 c7g2 "a" 1 = .ok c7g3 ∧
    Reachable c7g2 ∧ c7g2.state = "in_progress" := by
  have h1 : applyMove_v1 c7g0 "a" 0 = .ok c7g1 := rfl
  have h2 : set_turn c7g1 "a" "a" = .ok c7g2 := rfl
  have h3 : applyMove_v1 c7g2 "a" 1 = .ok c7g3 := rfl
  exact ⟨h1, h2, h3,
    Reachable.override "a" "a"
      (Reachable.move_v1 "a" 0 (Reachable.create "77" "a" "b" none) h1) h2, rfl⟩

/-- C7 amended: while `in_progress` and in the absence of the `set_turn`
override, the turn strictly alternates: a successful non-terminal move hands
the turn to the other participant, and two immediately consecutive successful
moves are never made by the same participant. -/
theorem C7_alternation_without_override (g : Game) (u : String) (pos : Int)
    (g' : Game) (hreach : Reachable g) (hnd : g.players.Nodup)
    (h1 : applyMove_v1 g u pos = .ok g') :
    (g'.state = "in_progress" → g'.turn ≠ u ∧ g'.turn ∈ g'.players) ∧
    (∀ v q g'', applyMove_v1 g' v q = .ok g'' → v ≠ u) := by
  obtain ⟨hs, hmem, hturn, h0, h8, hfree, -, -, -⟩ := applyMove_v1_ok h1
  obtain ⟨sym, q0, q1, -, hXO, hp, hv1, -⟩ :=
    move_master (reachable_inv hreach) hs hmem hturn h0 h8 hfree
  rw [h1] at hv1
  injection hv1 with hv1
  subst hv1
  have hq : q0 ≠ q1 := by
    rw [hp] at hnd
    simpa using (List.nodup_cons.mp hnd).1
  have humem : u = q0 ∨ u = q1 := by
    rw [hp] at hmem
    simpa using hmem
  by_cases hL : hasLine (g.board.set pos.toNat (some sym)) = true
  · have hstate : (moveResult g u pos.toNat sym q0 q1).state = "finished" := by
      unfold moveResult; rw [if_pos hL]
    constructor
    · intro hcon
      rw [hstate] at hcon
      exact absurd hcon (by decide)
    · intro v q g'' h2
      have hs2 := (applyMove_v1_ok h2).1
      rw [hstate] at hs2
      exact absurd hs2 (by decide)
  · by_cases hF : boardFull (g.board.set pos.toNat (some sym)) = true
    · have hstate : (moveResult g u pos.toNat sym q0 q1).state = "finished" := by
        unfold moveResult; rw [if_neg hL, if_pos hF]
      constructor
      · intro hcon
        rw [hstate] at hcon
        exact absurd hcon (by decide)
      · intro v q g'' h2
        have hs2 := (applyMove_v1_ok h2).1
        rw [hstate] at hs2
        exact absurd hs2 (by decide)
    · have hturnv : (moveResult g u pos.toNat sym q0 q1).turn =
          if u = q0 then q1 else q0 := by
        unfold moveResult
        rw [if_neg hL, if_neg hF, hturn]
      have hplayers : (moveResult g u pos.toNat sym q0 q1).players = g.players := by
        unfold moveResult; split_ifs <;> rfl
      have hne' : (if u = q0 then q1 else q0) ≠ u := by
        rcases humem with hu | hu
        · rw [if_pos hu, hu]
          exact Ne.symm hq
        · rw [if_neg (show ¬(u = q0) from fun e => hq (e ▸ hu))]
          exact fun e2 => hq (e2.trans hu)
      have hmem' : (if u = q0 then q1 else q0) ∈ [q0, q1] := by
        rcases humem with hu | hu
        · rw [if_pos hu]; simp
        · rw [if_neg (show ¬(u = q0) from fun e => hq (e ▸ hu))]; simp
      refine ⟨fun _ => ⟨?_, ?_⟩, ?_⟩
      · rw [hturnv]; exact hne'
      · rw [hturnv, hplayers, hp]; exact hmem'
      · intro v q g'' h2
        have hturn2 := (applyMove_v1_ok h2).2.2.1
        rw [hturnv] at hturn2
        rw [← hturn2]
        exact hne'

def c7w1 : Game :=
  { id := "g5"
    board := [some "X", none, none, none, none, none, none, none, none]
    players := ["a", "b"]
    turn := "b"
    symbols := [("a", "X"), ("b", "O")]
    state := "in_progress"
    winner := none }

theorem C7_alternation_without_override_witness :
    ((c7w1.state = "in_progress" → c7w1.turn ≠ "a" ∧ c7w1.turn ∈ c7w1.players) ∧
     (∀ v q g'', applyMove_v1 c7w1 v q = .ok g'' → v ≠ "a")) :=
  C7_alternation_without_override (create_game "g5" "a" "b" none) "a" 0 c7w1
    (Reachable.create "g5" "a" "b" none) (by decide) rfl

end TTT

namespace TTT

/-! ### C5: start_game is not idempotent in its side effect -/

def c5room : Room :=
  { id := "10001", name := "Room", host := "a", players := ["a", "b"],
    state := "full", max_players := 2 }

/-- C5 counterexample: `start_game` called by the host on a room that is
already `full` with 2 members triggers the Handoff Notifier again (the
returned flag is `true`), contradicting the claim that repeating it fires the
handoff at most once per room without re-triggering the side effect. -/
theorem C5_start_game_counterexample :
    c5room.state = "full" ∧ start_game c5room "a" = .ok (c5room, true) :=
  ⟨rfl, rfl⟩

/-- C5 amended: `start_game` by the host of a room with at least 2 members
always sets the state to `full` and triggers the Handoff Notifier — on every
call, including calls on a room already `full`; it is not idempotent in the
side effect. -/
theorem C5_start_game_always_triggers (room : Room) (u : String)
    (hu : u ≠ "") (hhost : u = room.host) (hn : 2 ≤ room.players.length) :
    start_game room u = .ok ({ room with state := "full" }, true) := by
  unfold start_game
  rw [if_neg (by push_neg; exact ⟨hu, hhost⟩), if_neg (by omega)]

theorem C5_start_game_always_triggers_witness :
    start_game c5room "a" = .ok ({ c5room with state := "full" }, true) :=
  C5_start_game_always_triggers c5room "a" (by decide) rfl (by decide)

/-! ### C6: join_room idempotency and single handoff trigger -/

lemma join_full_cases (room : Room) (u : String)
    (h : room.max_players ≤ (room.players.length : Int)) :
    join_room room u = .ok (room, false) ∨ join_room room u = .error .roomFull := by
  unfold join_room
  by_cases hm : u ∈ room.players
  · rw [if_pos hm]
    exact Or.inl rfl
  · rw [if_neg hm, if_pos h]
    exact Or.inr rfl

lemma join_trigger_full {room r : Room} {u : String}
    (h : join_room room u = .ok (r, true)) :
    r.max_players ≤ (r.players.length : Int) := by
  unfold join_room at h
  by_cases hm : u ∈ room.players
  · rw [if_pos hm] at h
    injection h with h
    injection h with h1 h2
    exact Bool.noConfusion h2
  rw [if_neg hm] at h
  by_cases hf : room.max_players ≤ (room.players.length : Int)
  · rw [if_pos hf] at h
    exact Except.noConfusion h
  rw [if_neg hf] at h
  by_cases hr : room.max_players ≤ ((room.players ++ [u]).length : Int)
  · rw [if_pos hr] at h
    injection h with h
    injection h with h1 h2
    rw [← h1]
    exact hr
  · rw [if_neg hr] at h
    injection h with h
    injection h with h1 h2
    exact Bool.noConfusion h2

lemma joinStep_full_fixed {acc : Room × Nat} {u : String}
    (h : acc.1.max_players ≤ (acc.1.players.length : Int)) :
    joinStep acc u = acc := by
  unfold joinStep
  rcases join_full_cases acc.1 u h with hc | hc
  · rw [hc]
    rfl
  · rw [hc]

lemma foldl_full_fixed (us : List String) (room : Room) (k : Nat)
    (h : room.max_players ≤ (room.players.length : Int)) :
    us.foldl joinStep (room, k) = (room, k) := by
  induction us with
  | nil => rfl
  | cons u rest ih =>
    rw [List.foldl_cons, joinStep_full_fixed h]
    exact ih

lemma foldl_trigger_bound (us : List String) : ∀ (room : Room) (k : Nat),
    (us.foldl joinStep (room, k)).2 ≤ k + 1 := by
  induction us with
  | nil => intro room k; exact Nat.le_succ k
  | cons u rest ih =>
    intro room k
    rw [List.foldl_cons]
    cases hj : join_room room u with
    | error e =>
      have hstep : joinStep (room, k) u = (room, k) := by
        unfold joinStep
        rw [hj]
      rw [hstep]
      exact ih room k
    | ok rt =>
      obtain ⟨r, t⟩ := rt
      cases t with
      | false =>
        have hstep : joinStep (room, k) u = (r, k) := by
          unfold joinStep
          rw [hj]
          rfl
        rw [hstep]
        exact ih r k
      | true =>
        have hstep : joinStep (room, k) u = (r, k + 1) := by
          unfold joinStep
          rw [hj]
          rfl
        rw [hstep, foldl_full_fixed rest r (k + 1) (join_trigger_full hj)]

/-- C6: joining a room again with an identity already a member is an
idempotent no-op that does not trigger the Handoff Notifier; across any
sequence of `join_room` calls the notifier fires at most once; and a join
triggers the notifier exactly when it is the join whose append reaches the
room's capacity (in which case the room transitions to `full`). -/
theorem C6_join_idempotent_single_trigger (room : Room) (u : String)
    (hmem : u ∈ room.players) :
    join_room room u = .ok (room, false) ∧
    (∀ us : List String, (joinSeq room us).2 ≤ 1) ∧
    (∀ (v : String) (r : Room) (t : Bool), join_room room v = .ok (r, t) →
      (t = true ↔ v ∉ room.players ∧
        (room.players.length : Int) < room.max_players ∧
        room.max_players ≤ (room.players.length : Int) + 1 ∧
        r = { room with players := room.players ++ [v], state := "full" })) := by
  refine ⟨?_, ?_, ?_⟩
  · unfold join_room
    rw [if_pos hmem]
  · intro us
    exact foldl_trigger_bound us room 0
  · intro v r t h
    unfold join_room at h
    by_cases hm : v ∈ room.players
    · rw [if_pos hm] at h
      injection h with h
      injection h with h1 h2
      constructor
      · intro ht
        rw [ht] at h2
        exact Bool.noConfusion h2
      · rintro ⟨hvm, -⟩
        exact absurd hm hvm
    · rw [if_neg hm] at h
      by_cases hf : room.max_players ≤ (room.players.length : Int)
      · rw [if_pos hf] at h
        exact Except.noConfusion h
      · rw [if_neg hf] at h
        push_neg at hf
        by_cases hr : room.max_players ≤ ((room.players ++ [v]).length : Int)
        · rw [if_pos hr] at h
          injection h with h
          injection h with h1 h2
          constructor
          · intro _
            refine ⟨hm, hf, ?_, h1.symm⟩
            simpa using hr
          · intro _
            exact h2.symm
        · rw [if_neg hr] at h
          injection h with h
          injection h with h1 h2
          constructor
          · intro ht
            rw [ht] at h2
            exact Bool.noConfusion h2
          · rintro ⟨-, -, hcap, -⟩
            have hr2 : ¬room.max_players ≤ (room.players.length : Int) + 1 := by
              simpa using hr
            exact absurd hcap hr2

def c6room : Room :=
  { id := "10002", name := "Room", host := "a", players := ["a", "b"],
    state := "waiting", max_players := 3 }

theorem C6_join_idempotent_single_trigger_witness :
    join_room c6room "a" = .ok (c6room, false) ∧
    (joinSeq c6room ["a", "c", "d", "c"]).2 ≤ 1 := by
  have hth := C6_join_idempotent_single_trigger c6room "a" (by decide)
  exact ⟨hth.1, hth.2.1 ["a", "c", "d", "c"]⟩

end TTT

namespace TTT

/-! ### C8: leave_room -/

def c8room : Room :=
  { id := "10003", name := "Room", host := "a", players := ["a", "b"],
    state := "full", max_players := 2 }

/-- C8 counterexample: a non-host ("b") leaves a `full` room; the room's state
is reset to `"waiting"` even though the host did not leave, contradicting the
claim that a non-host leaving leaves the state unchanged. -/
theorem C8_leave_room_counterexample :
    c8room.host = "a" ∧ c8room.state = "full" ∧
    leave_room c8room "b" =
      some { id := "10003", name := "Room", host := "a", players := ["a"],
             state := "waiting", max_players := 2 } :=
  ⟨rfl, rfl, rfl⟩

/-- C8 amended: `leave_room` removes the identity from the members; if the
members list becomes empty the room is destroyed; otherwise the state is reset
to `waiting` on every leave (host or not), and the host is reassigned to the
first remaining member in join order exactly when the departing identity was
the host. -/
theorem C8_leave_room_behavior (room : Room) (u : String)
    (hnd : room.players.Nodup) (hhost : room.host ∈ room.players) :
    (room.players.erase u = [] → leave_room room u = none) ∧
    (∀ r', leave_room room u = some r' →
      r'.players = room.players.erase u ∧ u ∉ r'.players ∧ r'.state = "waiting" ∧
      (u ≠ room.host → r'.host = room.host) ∧
      (u = room.host → ∃ p rest, room.players.erase u = p :: rest ∧ r'.host = p)) := by
  have hnotm : u ∉ room.players.erase u := by
    intro hmem'
    exact ((List.Nodup.mem_erase_iff hnd).mp hmem').1 rfl
  constructor
  · intro he
    unfold leave_room
    rw [he]
  · intro r' hr
    unfold leave_room at hr
    cases he : room.players.erase u with
    | nil =>
      rw [he] at hr
      exact Option.noConfusion hr
    | cons p rest =>
      rw [he] at hr
      injection hr with hr
      subst hr
      refine ⟨rfl, ?_, rfl, ?_, ?_⟩
      · show u ∉ p :: rest
        rw [← he]
        exact hnotm
      · intro hne
        have hin : room.host ∈ p :: rest := by
          rw [← he]
          exact (List.mem_erase_of_ne (fun e => hne e.symm)).mpr hhost
        show (if room.host ∈ p :: rest then room.host else p) = room.host
        rw [if_pos hin]
      · intro heq
        refine ⟨p, rest, rfl, ?_⟩
        have hnin : room.host ∉ p :: rest := by
          rw [← he, ← heq]
          exact hnotm
        show (if room.host ∈ p :: rest then room.host else p) = p
        rw [if_neg hnin]

def c8wroom : Room :=
  { id := "10004", name := "Room", host := "a", players := ["a", "b", "c"],
    state := "full", max_players := 3 }

theorem C8_leave_room_behavior_witness :
    (c8wroom.players.erase "b" = [] → leave_room c8wroom "b" = none) ∧
    (∀ r', leave_room c8wroom "b" = some r' →
      r'.players = c8wroom.players.erase "b" ∧ "b" ∉ r'.players ∧
      r'.state = "waiting" ∧
      ("b" ≠ c8wroom.host → r'.host = c8wroom.host) ∧
      ("b" = c8wroom.host → ∃ p rest, c8wroom.players.erase "b" = p :: rest ∧
        r'.host = p)) :=
  C8_leave_room_behavior c8wroom "b" (by decide) (by decide)

/-! ### C3: the notifier treats the already-exists response as failure -/

/-- C3 counterexample: the creation endpoint answers the "already exists"
status (HTTP 400, `"Game exists"`) on every attempt; the notifier does not
stop retrying with success — it exhausts its 3 attempts and reports failure. -/
theorem C3_already_exists_counterexample :
    create_game_status true = 400 ∧
    notify_game_service_of_full_room (fun _ => some (create_game_status true)) 3 =
      false :=
  ⟨rfl, rfl⟩

lemma notifyFrom_all_fail {oracle : Nat → Option Int}
    (h : ∀ k, attempt_ok (oracle k) = false) :
    ∀ (a r : Nat), notifyFrom oracle a r = false := by
  intro a r
  induction r generalizing a with
  | zero => rfl
  | succ n ih =>
    show (if attempt_ok (oracle a) = true then true else notifyFrom oracle (a + 1) n) =
      false
    rw [h a, if_neg (show ¬((false : Bool) = true) by decide)]
    exact ih (a + 1)

/-- C3 amended: the Handoff Notifier treats the creation endpoint's
"already exists" response (HTTP 400 `"Game exists"`) as a failure like any
other non-200/201 status: for any configured retry count it keeps retrying
and finally gives up reporting failure, instead of treating it as success. -/
theorem C3_already_exists_treated_as_failure (n : Nat) :
    notify_game_service_of_full_room (fun _ => some (create_game_status true)) n =
      false :=
  @notifyFrom_all_fail (fun _ => some (create_game_status true)) (fun _ => rfl) 1 n

end TTT
